import Mathlib

set_option autoImplicit false

/-!
A shallow embedding of `Apte::FastVector<T>` (src/FastVector.h), together
with proofs about its operations.

Modelling conventions:

* `m_Data` becomes `mData : Option (List (Option T))`: `none` is a null
  pointer; `some b` is an allocated block whose length is the slot count
  that was passed to `allocate`.  A slot holds `some x` when a live `T`
  has been constructed in it, and `none` when it is raw (never
  constructed, or already destroyed) memory.
* `allocate n` returns a fresh block of `n` raw slots.  `::operator new`
  returns a non-null pointer even for a zero-byte request, so the result
  of an allocation is always `some _`, including for `n = 0`.
* A call `deallocate(ptr, n)` on a non-null `ptr` pointing at block `b`
  is recorded as the event `(b.length, n)`: the slot count the block was
  allocated with, paired with the slot count handed back at release.
  The (pointer, size-in-bytes, alignment) triple round-trips exactly iff
  `n = b.length`, since the byte size is `n * sizeof(T)` and the
  alignment argument is always `std::align_val_t(alignof(T))`.
  `::operator delete` on a null pointer releases no block, so no event
  is recorded in that case.
* A `throw` is modelled by returning the thrown message alongside the
  state, which is left exactly as it was when the throw happened.
* The two `push_back` overloads (copy and move) construct the same value
  into the new slot and are modelled by a single function; likewise the
  two transfer loops of `grow` (move-based and copy-based) both
  construct the value of old slot `i` into new slot `i` and are
  modelled by a single `transferBlock`.
-/

universe u

/-- State of one `Apte::FastVector<T>` object: the fields `m_Data`,
`m_Size`, `m_Capacity`. -/
structure FastVector (T : Type u) where
  mData : Option (List (Option T))
  mSize : Nat
  mCapacity : Nat
deriving Repr, DecidableEq

variable {T : Type u}

/-- The default constructor `FastVector()`:
`m_Data(nullptr), m_Size(0), m_Capacity(0)`. -/
def mkFV : FastVector T := ⟨none, 0, 0⟩

/-- `allocate(n)`: a fresh block of `n` raw (uninitialized) slots. -/
def allocate (n : Nat) : List (Option T) := List.replicate n none

/-- `static constexpr size_t initialCapacity = 4`. -/
def initialCapacity : Nat := 4

/-- The block behind `m_Data` (the empty block when `m_Data` is null). -/
def block (v : FastVector T) : List (Option T) := v.mData.getD []

/-- A deallocation event: the slot count the released block was
allocated with, paired with the slot count passed to `deallocate`. -/
abbrev DeallocEvent := Nat × Nat

/-- The events of `deallocate(m_Data, n)`: one event when `m_Data` is
non-null, none when it is null (deleting a null pointer releases no
block). -/
def deallocEvents (v : FastVector T) (n : Nat) : List DeallocEvent :=
  match v.mData with
  | none => []
  | some b => [(b.length, n)]

/-- `true` iff every release in the list passed back exactly the slot
count its block was allocated with, i.e. iff every `deallocate` call
used the same (pointer, size, alignment) triple as the matching
`allocate`. -/
def eventsMatch (es : List DeallocEvent) : Bool :=
  es.all fun e => e.2 == e.1

/-- The transfer loop of `grow` (either branch) and of the copy
constructor: a freshly allocated block of `n` slots whose first `cnt`
slots have been constructed, in index order, from the corresponding
slots of `src`; the remaining slots stay raw. -/
def transferBlock (src : List (Option T)) (cnt n : Nat) : List (Option T) :=
  (List.range n).map fun i => if i < cnt then src.getD i none else none

/-- `nuke()`: runs the destructor on `m_Data[i]` for every `i < m_Size`.
Note that, despite its comment ("sets the size of the vector to 0"),
the source never modifies `m_Size` here. -/
def nuke (v : FastVector T) : FastVector T :=
  ⟨v.mData.map (fun b =>
      (List.range b.length).map fun i =>
        if i < v.mSize then none else b.getD i none),
   v.mSize, v.mCapacity⟩

/-- `clear()`: just calls `nuke()`. -/
def clear (v : FastVector T) : FastVector T := nuke v

/-- `grow()`: doubles the capacity (or starts at `initialCapacity`),
allocates the new block, transfers the `m_Size` live elements, nukes
the old elements, deallocates the old block (unconditionally in the
source, but a null `m_Data` releases no block), and adopts the new
block; `m_Size` is not touched.  Returns the new state together with
the deallocation events. -/
def grow (v : FastVector T) : FastVector T × List DeallocEvent :=
  let newCapacity := if 0 < v.mCapacity then v.mCapacity * 2 else initialCapacity
  let newData := transferBlock (block v) v.mSize newCapacity
  (⟨some newData, v.mSize, newCapacity⟩, deallocEvents v v.mCapacity)

/-- `push_back(value)` (both overloads): grows when `m_Size ==
m_Capacity`, constructs the value into slot `m_Size`, increments
`m_Size`. -/
def push_back (v : FastVector T) (value : T) : FastVector T :=
  let v1 := if v.mSize = v.mCapacity then (grow v).1 else v
  ⟨some ((block v1).set v1.mSize (some value)), v1.mSize + 1, v1.mCapacity⟩

/-- The message of the `std::out_of_range` thrown by `pop_back`. -/
def emptyMsg : String := "Vector is empty"

/-- `pop_back()`: throws when `m_Size == 0`, leaving the state exactly
as it was; otherwise decrements `m_Size` and destroys the element in
slot `m_Size - 1`.  The first component is the thrown message (`none`
on success). -/
def pop_back (v : FastVector T) : Option String × FastVector T :=
  if v.mSize = 0 then (some emptyMsg, v)
  else (none,
    ⟨some ((block v).set (v.mSize - 1) none), v.mSize - 1, v.mCapacity⟩)

/-- `size()`. -/
def size (v : FastVector T) : Nat := v.mSize

/-- A read of `m_Data[index]` through `operator[]`: the content of slot
`index` (`none` models reading memory that holds no live object). -/
def getIdx (v : FastVector T) (index : Nat) : Option T :=
  (block v).getD index none

/-- The copy constructor: `m_Data = allocate(m_Capacity)` (non-null even
when the capacity is 0), then copy-constructs the `m_Size` live
elements of `other` in index order. -/
def copyCtor (other : FastVector T) : FastVector T :=
  ⟨some (transferBlock (block other) other.mSize other.mCapacity),
   other.mSize, other.mCapacity⟩

/-- The move constructor: steals the three fields and nulls out the
source.  Returns (the constructed object, the moved-from source). -/
def moveCtor (other : FastVector T) : FastVector T × FastVector T :=
  (⟨other.mData, other.mSize, other.mCapacity⟩, ⟨none, 0, 0⟩)

/-- The body of `operator=(FastVector&&)` in the `this != &other`
branch: `nuke()` on `*this`, then `deallocate(m_Data, m_Size)` — note
the source passes `m_Size`, not `m_Capacity`, here — then steals the
fields of `other` and nulls `other` out.  Returns ((the new `*this`,
the new `other`), the deallocation events). -/
def moveAssignBody (self other : FastVector T) :
    (FastVector T × FastVector T) × List DeallocEvent :=
  let selfN := nuke self
  ((⟨other.mData, other.mSize, other.mCapacity⟩, ⟨none, 0, 0⟩),
   deallocEvents selfN selfN.mSize)

/-- `operator=(FastVector&&)` acting on a store of objects addressed by
id, including the `if (this != &other)` self-assignment guard. -/
def moveAssign (h : Nat → FastVector T) (self other : Nat) :
    (Nat → FastVector T) × List DeallocEvent :=
  if self = other then (h, [])
  else
    let r := moveAssignBody (h self) (h other)
    (fun k => if k = self then r.1.1 else if k = other then r.1.2 else h k,
     r.2)

/-- `~FastVector()`: `nuke()`, then `if (m_Data) deallocate(m_Data,
m_Capacity)`.  Only the deallocation events are observable. -/
def dtorEvents (v : FastVector T) : List DeallocEvent :=
  let vN := nuke v
  deallocEvents vN vN.mCapacity

/-- `push_back` over a whole list of values, first to last. -/
def pushAll (v : FastVector T) (xs : List T) : FastVector T :=
  xs.foldl push_back v

/-- The part of the spec invariants that is expressible over the
embedding: the size never exceeds the capacity, and the allocated block
(if any) has exactly `m_Capacity` slots.  In particular a null `m_Data`
(empty `block`) forces `m_Capacity = 0`. -/
def StateInv (v : FastVector T) : Prop :=
  v.mSize ≤ v.mCapacity ∧ (block v).length = v.mCapacity

/-- `v` is a buffer holding exactly the values `ys`, in order: the size
is `ys.length`, the invariants hold, and slot `i` holds `ys[i]` for
every `i` below the size. -/
def Represents (v : FastVector T) (ys : List T) : Prop :=
  v.mSize = ys.length ∧ v.mSize ≤ v.mCapacity ∧
  (block v).length = v.mCapacity ∧
  ∀ i, i < ys.length → getIdx v i = ys[i]?

/-- States reachable through the public operations, starting from
default-constructed vectors.  (`reserve` is absent: its transfer loop
subscripts the integer member `m_Size` and does not compile, see the
notes on the reservation path.) -/
inductive Reachable {T : Type u} : FastVector T → Prop
  | base : Reachable mkFV
  | push (v : FastVector T) (x : T) : Reachable v → Reachable (push_back v x)
  | pop (v : FastVector T) : Reachable v → Reachable (pop_back v).2
  | clr (v : FastVector T) : Reachable v → Reachable (clear v)
  | copy (v : FastVector T) : Reachable v → Reachable (copyCtor v)
  | moveNew (v : FastVector T) : Reachable v → Reachable (moveCtor v).1
  | moveOld (v : FastVector T) : Reachable v → Reachable (moveCtor v).2
  | massignNew (u v : FastVector T) : Reachable u → Reachable v →
      Reachable (moveAssignBody u v).1.1
  | massignOld (u v : FastVector T) : Reachable u → Reachable v →
      Reachable (moveAssignBody u v).1.2

/-- A store of allocated blocks, for the claims about aliasing: a block
id is an index into `blocks`, and an allocation appends a fresh block
(so the fresh id is the previous length of `blocks`). -/
structure Mem (T : Type u) where
  blocks : List (List (Option T))
deriving Repr, DecidableEq

/-- A `FastVector` whose `m_Data` field is kept as a pointer: `none` is
null, `some p` points at block `p` of a `Mem`. -/
structure FastVectorP (T : Type u) where
  dataPtr : Option Nat
  pSize : Nat
  pCapacity : Nat
deriving Repr, DecidableEq

/-- The block a pointer refers to. -/
def Mem.blockAt (m : Mem T) (p : Option Nat) : List (Option T) :=
  match p with
  | none => []
  | some i => m.blocks.getD i []

/-- The copy constructor in the pointer model: `allocate(m_Capacity)`
returns the fresh block id `m.blocks.length`, and the copy loop
constructs the live elements of `other` into that block, in index
order. -/
def copyCtorP (m : Mem T) (other : FastVectorP T) : Mem T × FastVectorP T :=
  let newBlock := transferBlock (m.blockAt other.dataPtr) other.pSize other.pCapacity
  (⟨m.blocks ++ [newBlock]⟩,
   ⟨some m.blocks.length, other.pSize, other.pCapacity⟩)

/-- A write `v[i] = x` through the reference returned by `operator[]`:
mutates slot `i` of the block `v` points at. -/
def writeIdx (m : Mem T) (v : FastVectorP T) (i : Nat) (x : T) : Mem T :=
  match v.dataPtr with
  | none => m
  | some p => ⟨m.blocks.set p ((m.blocks.getD p []).set i (some x))⟩

/-- A read `v[i]` through `operator[]` in the pointer model. -/
def readIdx (m : Mem T) (v : FastVectorP T) (i : Nat) : Option T :=
  (m.blockAt v.dataPtr).getD i none

theorem getD_set_self {α : Type u} (b : List α) (i : Nat) (a d : α)
    (h : i < b.length) : (b.set i a).getD i d = a := by
  induction b generalizing i with
  | nil => simp at h
  | cons y ys ih =>
    cases i with
    | zero => rfl
    | succ n => exact ih n (by simpa using h)

theorem getD_set_ne {α : Type u} (b : List α) (i j : Nat) (a d : α)
    (h : i ≠ j) : (b.set i a).getD j d = b.getD j d := by
  rw [List.getD_eq_getElem?_getD, List.getD_eq_getElem?_getD,
    List.getElem?_set_ne h]

theorem getD_append_left {α : Type u} (l1 l2 : List α) (i : Nat) (d : α)
    (h : i < l1.length) : (l1 ++ l2).getD i d = l1.getD i d := by
  rw [List.getD_eq_getElem?_getD, List.getD_eq_getElem?_getD,
    List.getElem?_append, if_pos h]

theorem getD_concat_self {α : Type u} (l : List α) (a : α) (d : α) :
    (l ++ [a]).getD l.length d = a := by
  rw [List.getD_eq_getElem?_getD, List.getElem?_concat_length]
  rfl

theorem getD_range_map {α : Type u} (f : Nat → α) (n i : Nat) (d : α) :
    ((List.range n).map f).getD i d = if i < n then f i else d := by
  rw [List.getD_eq_getElem?_getD, List.getElem?_map]
  by_cases h : i < n
  · rw [List.getElem?_range h, if_pos h]
    rfl
  · rw [if_neg h, List.getElem?_eq_none (by simpa using Nat.le_of_not_lt h)]
    rfl

theorem length_transferBlock (src : List (Option T)) (cnt n : Nat) :
    (transferBlock src cnt n).length = n := by
  simp [transferBlock]

theorem getD_transferBlock (src : List (Option T)) (cnt n i : Nat) :
    (transferBlock src cnt n).getD i none =
      if i < n then (if i < cnt then src.getD i none else none) else none :=
  getD_range_map _ n i none

theorem push_back_eq_of_eq (v : FastVector T) (x : T)
    (h : v.mSize = v.mCapacity) :
    push_back v x =
      ⟨some ((transferBlock (block v) v.mSize
          (if 0 < v.mCapacity then v.mCapacity * 2 else 4)).set v.mSize
          (some x)),
        v.mSize + 1, if 0 < v.mCapacity then v.mCapacity * 2 else 4⟩ := by
  simp only [push_back, if_pos h]
  rfl

theorem push_back_eq_of_ne (v : FastVector T) (x : T)
    (h : ¬v.mSize = v.mCapacity) :
    push_back v x =
      ⟨some ((block v).set v.mSize (some x)), v.mSize + 1, v.mCapacity⟩ := by
  simp only [push_back, if_neg h]

theorem size_push_back (v : FastVector T) (x : T) :
    (push_back v x).mSize = v.mSize + 1 := by
  by_cases h : v.mSize = v.mCapacity
  · rw [push_back_eq_of_eq v x h]
  · rw [push_back_eq_of_ne v x h]

theorem block_nuke (v : FastVector T) :
    (block (nuke v)).length = (block v).length := by
  cases hd : v.mData with
  | none => simp [nuke, block, hd]
  | some b => simp [nuke, block, hd]

theorem represents_mkFV : Represents (mkFV (T := T)) [] :=
  ⟨rfl, Nat.le_refl 0, rfl, fun i hi => absurd hi (Nat.not_lt_zero i)⟩

theorem represents_set (b : List (Option T)) (cap : Nat) (ys : List T)
    (x : T) (hlen : b.length = cap) (hsz : ys.length < cap)
    (he : ∀ i, i < ys.length → b.getD i none = ys[i]?) :
    Represents ⟨some (b.set ys.length (some x)), ys.length + 1, cap⟩
      (ys ++ [x]) := by
  refine ⟨by simp, by simpa using hsz, ?_, ?_⟩
  · show (b.set ys.length (some x)).length = cap
    rw [List.length_set]
    exact hlen
  · intro i hi
    rw [List.length_append, List.length_singleton] at hi
    show (b.set ys.length (some x)).getD i none = (ys ++ [x])[i]?
    rcases Nat.lt_or_ge i ys.length with hilt | hige
    · rw [getD_set_ne _ _ _ _ _ (by omega), List.getElem?_append, if_pos hilt]
      exact he i hilt
    · have hieq : i = ys.length := by omega
      subst hieq
      rw [getD_set_self _ _ _ _ (by omega)]
      exact (List.getElem?_concat_length ys x).symm

theorem represents_push_back (v : FastVector T) (ys : List T) (x : T)
    (hv : Represents v ys) : Represents (push_back v x) (ys ++ [x]) := by
  obtain ⟨hs, hsc, hl, he⟩ := hv
  by_cases h : v.mSize = v.mCapacity
  · rw [push_back_eq_of_eq v x h, hs]
    refine represents_set _ _ _ _ ?_ ?_ ?_
    · rw [length_transferBlock]
    · split <;> omega
    · intro i hi
      rw [getD_transferBlock, if_pos (by split <;> omega), if_pos (by omega)]
      exact he i hi
  · rw [push_back_eq_of_ne v x h, hs]
    exact represents_set _ _ _ _ hl (by omega) he

theorem represents_pushAll (xs : List T) :
    ∀ (v : FastVector T) (ys : List T), Represents v ys →
      Represents (pushAll v xs) (ys ++ xs) := by
  induction xs with
  | nil => intro v ys hv; simpa [pushAll] using hv
  | cons x xs ih =>
    intro v ys hv
    have h2 := ih (push_back v x) (ys ++ [x]) (represents_push_back v ys x hv)
    simpa [pushAll, List.append_assoc] using h2

theorem stateInv_mkFV : StateInv (mkFV (T := T)) := ⟨Nat.le_refl 0, rfl⟩

theorem stateInv_push_back (v : FastVector T) (x : T) (hv : StateInv v) :
    StateInv (push_back v x) := by
  obtain ⟨h1, h2⟩ := hv
  by_cases h : v.mSize = v.mCapacity
  · rw [push_back_eq_of_eq v x h]
    constructor
    · show v.mSize + 1 ≤ if 0 < v.mCapacity then v.mCapacity * 2 else 4
      split <;> omega
    · show (List.set (transferBlock (block v) v.mSize
          (if 0 < v.mCapacity then v.mCapacity * 2 else 4)) v.mSize
          (some x)).length = _
      rw [List.length_set, length_transferBlock]
  · rw [push_back_eq_of_ne v x h]
    constructor
    · show v.mSize + 1 ≤ v.mCapacity
      omega
    · show (List.set (block v) v.mSize (some x)).length = v.mCapacity
      rw [List.length_set]
      exact h2

theorem stateInv_pop_back (v : FastVector T) (hv : StateInv v) :
    StateInv (pop_back v).2 := by
  obtain ⟨h1, h2⟩ := hv
  by_cases h : v.mSize = 0
  · simp only [pop_back, if_pos h]
    exact ⟨h1, h2⟩
  · simp only [pop_back, if_neg h]
    constructor
    · show v.mSize - 1 ≤ v.mCapacity
      omega
    · show (List.set (block v) (v.mSize - 1) none).length = v.mCapacity
      rw [List.length_set]
      exact h2

theorem stateInv_clear (v : FastVector T) (hv : StateInv v) :
    StateInv (clear v) :=
  ⟨hv.1, (block_nuke v).trans hv.2⟩

theorem stateInv_copyCtor (v : FastVector T) (hv : StateInv v) :
    StateInv (copyCtor v) := by
  refine ⟨hv.1, ?_⟩
  show (transferBlock (block v) v.mSize v.mCapacity).length = v.mCapacity
  rw [length_transferBlock]

theorem reachable_stateInv (v : FastVector T) (hv : Reachable v) :
    StateInv v := by
  induction hv with
  | base => exact stateInv_mkFV
  | push w x _ ih => exact stateInv_push_back w x ih
  | pop w _ ih => exact stateInv_pop_back w ih
  | clr w _ ih => exact stateInv_clear w ih
  | copy w _ ih => exact stateInv_copyCtor w ih
  | moveNew w _ ih => exact ih
  | moveOld w _ _ => exact ⟨Nat.le_refl 0, rfl⟩
  | massignNew u w _ _ _ ihw => exact ihw
  | massignOld u w _ _ _ _ => exact ⟨Nat.le_refl 0, rfl⟩

theorem readIdx_writeIdx_ne (m2 : Mem T) (a b2 : FastVectorP T)
    (qa qb : Nat) (i : Nat) (x : T) (j : Nat)
    (ha : a.dataPtr = some qa) (hb : b2.dataPtr = some qb) (hne : qa ≠ qb) :
    readIdx (writeIdx m2 a i x) b2 j = readIdx m2 b2 j := by
  obtain ⟨da, sa, ca⟩ := a
  obtain ⟨db, sb, cb⟩ := b2
  change da = some qa at ha
  change db = some qb at hb
  subst ha
  subst hb
  show ((m2.blocks.set qa ((m2.blocks.getD qa []).set i (some x))).getD qb
      []).getD j none = (m2.blocks.getD qb []).getD j none
  rw [getD_set_ne _ _ _ _ _ hne]

/-- **C1** (code bug, evaluated at the failing input): pushing one value
onto a fresh buffer and then calling `clear()` destroys the live
element and keeps the capacity-4 block, but `size()` is still 1, not 0:
`nuke()` never resets `m_Size`, although its own comment says it does. -/
theorem clear_destroys_elements_but_size_stays :
    clear (push_back (mkFV (T := Nat)) 42) =
      ⟨some [none, none, none, none], 1, 4⟩ ∧
    size (clear (push_back (mkFV (T := Nat)) 42)) ≠ 0 := by
  constructor <;> decide

/-- **C2**: pushing the values `xs`, in order, onto a default-constructed
buffer yields `size() = xs.length` with slot `i` holding the i-th value
pushed for every `i < xs.length`; moreover each individual `push_back`
onto a buffer obtained this way increments the size by exactly 1 and
stores the appended value at index `size - 1` of the new buffer. -/
theorem push_back_sequence_spec (xs ys : List T) (x : T) :
    size (pushAll mkFV xs) = xs.length ∧
    (∀ i (h : i < xs.length),
      getIdx (pushAll mkFV xs) i = some (xs.get ⟨i, h⟩)) ∧
    size (push_back (pushAll mkFV ys) x) = size (pushAll mkFV ys) + 1 ∧
    getIdx (push_back (pushAll mkFV ys) x) (size (pushAll mkFV ys)) =
      some x := by
  have hx := represents_pushAll xs mkFV [] represents_mkFV
  have hy := represents_pushAll ys mkFV [] represents_mkFV
  rw [List.nil_append] at hx hy
  have hpe := (represents_push_back _ _ x hy).2.2.2
  refine ⟨hx.1, ?_, size_push_back _ x, ?_⟩
  · intro i h
    rw [show getIdx (pushAll mkFV xs) i = xs[i]? from hx.2.2.2 i h,
      List.getElem?_eq_getElem h]
    simp
  · have h1 : size (pushAll mkFV ys) = ys.length := hy.1
    rw [h1, hpe ys.length (by simp)]
    exact List.getElem?_concat_length ys x

/-- Witness for **C2** at the concrete input `[5, 7, 9]`. -/
theorem push_back_sequence_spec_witness :
    size (pushAll (mkFV (T := Nat)) [5, 7, 9]) = 3 ∧
    getIdx (pushAll (mkFV (T := Nat)) [5, 7, 9]) 1 = some 7 :=
  ⟨(push_back_sequence_spec [5, 7, 9] [] 0).1,
   (push_back_sequence_spec [5, 7, 9] [] 0).2.1 1 (by decide)⟩

/-- **C4**: growth computes the new capacity as 4 when the capacity is 0
and twice the capacity otherwise, and leaves the size unchanged; pushing
5 elements onto a fresh buffer drives the capacity through 0, 4, 8 (the
capacity after each prefix of pushes is 0, 4, 4, 4, 4, 8). -/
theorem grow_doubles_capacity (v : FastVector T) :
    ((grow v).1.mCapacity =
      if v.mCapacity = 0 then 4 else v.mCapacity * 2) ∧
    (grow v).1.mSize = v.mSize ∧
    (List.range 6).map
        (fun k => (pushAll (mkFV (T := Nat)) ((List.range 5).take k)).mCapacity)
      = [0, 4, 4, 4, 4, 8] := by
  refine ⟨?_, rfl, by decide⟩
  show (if 0 < v.mCapacity then v.mCapacity * 2 else initialCapacity) = _
  unfold initialCapacity
  split <;> split <;> omega

/-- **C5**: `pop_back` throws (an empty-container error carrying the
message of the `std::out_of_range` in the source) exactly when the size
is 0, and the throw leaves the buffer unchanged; on a non-empty buffer
it succeeds, decrements the size by exactly 1, keeps the capacity and
the elements below the new size, and destroys the former last
element. -/
theorem pop_back_spec (v : FastVector T) :
    ((pop_back v).1 = some emptyMsg ↔ v.mSize = 0) ∧
    (v.mSize = 0 → (pop_back v).2 = v) ∧
    (0 < v.mSize →
      (pop_back v).1 = none ∧
      size (pop_back v).2 = v.mSize - 1 ∧
      (pop_back v).2.mCapacity = v.mCapacity ∧
      (∀ i, i < v.mSize - 1 → getIdx (pop_back v).2 i = getIdx v i) ∧
      getIdx (pop_back v).2 (v.mSize - 1) = none) := by
  by_cases h : v.mSize = 0
  · refine ⟨by simp [pop_back, h], fun _ => by simp [pop_back, h], ?_⟩
    intro h0
    omega
  · refine ⟨by simp [pop_back, h], fun h0 => absurd h0 h, fun _ => ?_⟩
    refine ⟨by simp [pop_back, h], ?_, ?_, ?_, ?_⟩
    · simp only [pop_back, if_neg h]
      rfl
    · simp only [pop_back, if_neg h]
    · intro i hi
      simp only [pop_back, if_neg h]
      show (List.set (block v) (v.mSize - 1) none).getD i none = getIdx v i
      rw [getD_set_ne _ _ _ _ _ (by omega)]
      rfl
    · simp only [pop_back, if_neg h]
      show (List.set (block v) (v.mSize - 1) none).getD (v.mSize - 1) none
        = none
      rcases Nat.lt_or_ge (v.mSize - 1) (block v).length with hl | hl
      · exact getD_set_self _ _ _ _ hl
      · rw [List.getD_eq_default]
        simpa using hl

/-- Witness for **C5**: a throw on the empty buffer, and a successful
pop on a two-element buffer. -/
theorem pop_back_spec_witness :
    (pop_back (mkFV (T := Nat))).1 = some emptyMsg ∧
    size (pop_back (pushAll (mkFV (T := Nat)) [1, 2])).2 = 1 :=
  ⟨(pop_back_spec mkFV).1.mpr rfl,
   ((pop_back_spec (pushAll (mkFV (T := Nat)) [1, 2])).2.2 (by decide)).2.1⟩

/-- **C6**: the move constructor hands the full state of the source to
the new object and leaves the source equal to a default-constructed
buffer, and move assignment between two distinct objects does the same
for the destination and source slots of the object store, leaving every
other object untouched. -/
theorem move_transfers_and_empties_source (v : FastVector T)
    (h : Nat → FastVector T) (i j : Nat) (hij : i ≠ j) :
    moveCtor v = (v, mkFV) ∧
    (moveAssign h i j).1 i = h j ∧
    (moveAssign h i j).1 j = mkFV ∧
    (∀ k, k ≠ i → k ≠ j → (moveAssign h i j).1 k = h k) := by
  refine ⟨rfl, ?_, ?_, ?_⟩
  · simp [moveAssign, moveAssignBody, hij]
  · simp [moveAssign, moveAssignBody, hij, Ne.symm hij, mkFV]
  · intro k hki hkj
    simp [moveAssign, moveAssignBody, hij, hki, hkj]

/-- Witness for **C6** at a concrete store and distinct ids 1 and 0. -/
theorem move_transfers_witness :
    (moveAssign (fun _ => pushAll (mkFV (T := Nat)) [7]) 1 0).1 1 =
      pushAll (mkFV (T := Nat)) [7] :=
  (move_transfers_and_empties_source (mkFV (T := Nat))
    (fun _ => pushAll (mkFV (T := Nat)) [7]) 1 0 (by decide)).2.1

/-- **C7** (code bug, evaluated at the failing input): on the buffer
obtained by pushing two values (block allocated for 4 slots, size 2),
the destructor and growth release the block with the same slot count it
was allocated with, but move assignment onto this buffer calls
`deallocate(m_Data, m_Size)` and releases the 4-slot block with slot
count 2 — the (pointer, size, alignment) triple does not round-trip. -/
theorem moveAssign_dealloc_size_mismatch :
    (pushAll (mkFV (T := Nat)) [1, 2]).mSize = 2 ∧
    (pushAll (mkFV (T := Nat)) [1, 2]).mCapacity = 4 ∧
    eventsMatch (dtorEvents (pushAll (mkFV (T := Nat)) [1, 2])) = true ∧
    eventsMatch ((grow (pushAll (mkFV (T := Nat)) [1, 2])).2) = true ∧
    (moveAssignBody (pushAll (mkFV (T := Nat)) [1, 2]) mkFV).2 = [(4, 2)] ∧
    eventsMatch
      ((moveAssignBody (pushAll (mkFV (T := Nat)) [1, 2]) mkFV).2) = false := by
  decide

/-- **C8** counterexample: copy-constructing from a default-constructed
(empty, capacity-0) buffer calls `allocate(0)`, which returns a
non-null pointer, so the resulting buffer has non-null storage with
capacity 0 — the claimed "storage non-null iff capacity > 0" invariant
fails right after this public operation. -/
theorem copy_of_empty_breaks_null_iff :
    ¬ ((copyCtor (mkFV (T := Nat))).mData ≠ none ↔
        0 < (copyCtor (mkFV (T := Nat))).mCapacity) := by
  decide

/-- **C8** (amended): after every public operation (construction, copy,
move, `push_back`, `pop_back`, `clear`), `size ≤ capacity` holds and
`capacity > 0` implies the storage pointer is non-null; the converse
implication can fail, because copy construction always allocates and
therefore always yields non-null storage, even when copying from a
buffer of capacity 0. -/
theorem reachable_invariants (v w : FastVector T) (hv : Reachable v) :
    (v.mSize ≤ v.mCapacity ∧ (0 < v.mCapacity → v.mData ≠ none)) ∧
    (copyCtor w).mData ≠ none := by
  have h := reachable_stateInv v hv
  refine ⟨⟨h.1, ?_⟩, by simp [copyCtor]⟩
  intro hc hN
  have h2 := h.2
  rw [block, hN] at h2
  simp at h2
  omega

/-- Witness for **C8** at the reachable state obtained by one push. -/
theorem reachable_invariants_witness :
    ((push_back (mkFV (T := Nat)) 5).mSize ≤
        (push_back (mkFV (T := Nat)) 5).mCapacity ∧
      (0 < (push_back (mkFV (T := Nat)) 5).mCapacity →
        (push_back (mkFV (T := Nat)) 5).mData ≠ none)) ∧
    (copyCtor (mkFV (T := Nat))).mData ≠ none :=
  reachable_invariants (push_back mkFV 5) mkFV
    (Reachable.push mkFV 5 Reachable.base)

/-- **C10**: move-assigning an object to itself is a no-op — the
`this != &other` guard short-circuits, so every object of the store
(including all its elements, size and capacity) is unchanged and no
deallocation happens. -/
theorem moveAssign_self_noop (h : Nat → FastVector T) (b : Nat) :
    moveAssign h b b = (h, []) := by
  simp [moveAssign]

/-- **C9**: copy construction from a valid source produces a buffer with
the same size and capacity whose slots below the size hold the same
values as the source's, backed by a distinct (freshly allocated) block;
the source's block is unchanged by the copy, and writing through
`operator[]` of either buffer never changes what is read through the
other. -/
theorem copyCtor_independent (m : Mem T) (v : FastVectorP T) (p : Nat)
    (hp : v.dataPtr = some p) (hpv : p < m.blocks.length)
    (hsz : v.pSize ≤ v.pCapacity) :
    (copyCtorP m v).2.pSize = v.pSize ∧
    (copyCtorP m v).2.pCapacity = v.pCapacity ∧
    (∀ i, i < v.pSize →
      readIdx (copyCtorP m v).1 (copyCtorP m v).2 i = readIdx m v i) ∧
    (copyCtorP m v).2.dataPtr ≠ v.dataPtr ∧
    (∀ j, readIdx (copyCtorP m v).1 v j = readIdx m v j) ∧
    (∀ i x j, readIdx (writeIdx (copyCtorP m v).1 (copyCtorP m v).2 i x) v j
      = readIdx (copyCtorP m v).1 v j) ∧
    (∀ i x j, readIdx (writeIdx (copyCtorP m v).1 v i x) (copyCtorP m v).2 j
      = readIdx (copyCtorP m v).1 (copyCtorP m v).2 j) := by
  obtain ⟨dp, sz, cap⟩ := v
  change dp = some p at hp
  change sz ≤ cap at hsz
  subst hp
  refine ⟨rfl, rfl, ?_, ?_, ?_, ?_, ?_⟩
  · intro i hi
    change i < sz at hi
    show ((m.blocks ++ [transferBlock (m.blocks.getD p []) sz cap]).getD
        m.blocks.length []).getD i none = (m.blocks.getD p []).getD i none
    rw [getD_concat_self, getD_transferBlock, if_pos (by omega), if_pos hi]
  · show some m.blocks.length ≠ some p
    intro hcontra
    have := Option.some.inj hcontra
    omega
  · intro j
    show ((m.blocks ++ [transferBlock (m.blocks.getD p []) sz cap]).getD p
        []).getD j none = (m.blocks.getD p []).getD j none
    rw [getD_append_left _ _ _ _ hpv]
  · intro i x j
    exact readIdx_writeIdx_ne _ _ _ m.blocks.length p i x j rfl rfl (by omega)
  · intro i x j
    exact readIdx_writeIdx_ne _ _ _ p m.blocks.length i x j rfl rfl (by omega)

/-- Witness for **C9**: a one-block store holding the values 3, 4 and a
vector of size 2 pointing at it. -/
theorem copyCtor_independent_witness :
    readIdx (copyCtorP (⟨[[some 3, some 4]]⟩ : Mem Nat) ⟨some 0, 2, 2⟩).1
        (copyCtorP (⟨[[some 3, some 4]]⟩ : Mem Nat) ⟨some 0, 2, 2⟩).2 0 =
      readIdx (⟨[[some 3, some 4]]⟩ : Mem Nat) ⟨some 0, 2, 2⟩ 0 ∧
    (copyCtorP (⟨[[some 3, some 4]]⟩ : Mem Nat) ⟨some 0, 2, 2⟩).2.dataPtr ≠
      (⟨some 0, 2, 2⟩ : FastVectorP Nat).dataPtr :=
  ⟨(copyCtor_independent (⟨[[some 3, some 4]]⟩ : Mem Nat) ⟨some 0, 2, 2⟩ 0
      rfl (by decide) (by decide)).2.2.1 0 (by decide),
   (copyCtor_independent (⟨[[some 3, some 4]]⟩ : Mem Nat) ⟨some 0, 2, 2⟩ 0
      rfl (by decide) (by decide)).2.2.2.1⟩
